import Mathlib

/-!
Verification of the batch-review orchestration core of the VSCode-Gerrit
extension, shallowly embedded in Lean 4.  Each definition translates one
function from the TypeScript source (`src/views/editor/batchReview.ts`,
`src/lib/batchReviewApi/server.ts`,
`src/views/editor/batchReview/html/src/lib/api.ts`, and the webview
selection handler); asynchronous remote calls are modelled as explicit
environment parameters, and JavaScript in-place mutation as pure state
passing.
-/

/-! ## Data model (`batchReview/types.ts`) -/

/-- Severity levels for review scoring, from `types.ts` / `server.ts`. -/
inductive SeverityLevel where
  | CRITICAL
  | HIGH
  | MEDIUM
  | LOW
  | APPROVED
deriving DecidableEq, Repr

/-- A change in one of the two queues.  Only the fields the modelled
operations read or write are kept: `changeID` is the REST id
(project~branch~Ixxxx), `changeId` the Gerrit Change-Id (Ixxxx...). -/
structure BatchReviewChange where
  changeID : String
  changeId : String
  severity : Option SeverityLevel := none
  submittable : Bool := false
  hasCodeReviewPlus2 : Bool := false
deriving DecidableEq, Repr

/-- The two queues of `BatchReviewState`. -/
structure QState where
  incoming : List BatchReviewChange
  batch : List BatchReviewChange
deriving DecidableEq, Repr

/-! ## BatchOrganizer (`_organizeChainGroupsAsync`, batchReview.ts) -/

/-- `severityPriority` from `_organizeChainGroupsAsync`: CRITICAL=5, HIGH=4,
MEDIUM=3, LOW=2, APPROVED=1, undefined=0. -/
def severityPriority : Option SeverityLevel → Nat
  | some .CRITICAL => 5
  | some .HIGH => 4
  | some .MEDIUM => 3
  | some .LOW => 2
  | some .APPROVED => 1
  | none => 0

/-- The per-change chain data recorded into the `chainInfos` map: a change
with `inChain` and a `chainBaseChangeId` contributes
`position := chainInfo.position ?? 999` and its chain base id. -/
structure GroupInfo where
  position : Nat
  chainBase : String
deriving DecidableEq, Repr

/-- One step of `chainGroups.set(base, group)` on a JavaScript `Map`:
an existing key keeps its place and its group is extended, a new key is
appended (JS Map preserves insertion order). -/
def insertGroup (key : String) (v : BatchReviewChange × Nat) :
    List (String × List (BatchReviewChange × Nat)) →
    List (String × List (BatchReviewChange × Nat))
  | [] => [(key, [v])]
  | (k, g) :: rest =>
    if k = key then (k, g ++ [v]) :: rest else (k, g) :: insertGroup key v rest

/-- The grouping loop of `_organizeChainGroupsAsync`: batch items with chain
info are grouped by chain base, in first-occurrence order. -/
def collectGroups (chainInfo : String → Option GroupInfo)
    (batch : List BatchReviewChange) :
    List (String × List (BatchReviewChange × Nat)) :=
  batch.foldl
    (fun m c =>
      match chainInfo c.changeId with
      | some info => insertGroup info.chainBase (c, info.position) m
      | none => m)
    []

/-- `Math.max(...group.map(severityPriority))` over a (always nonempty)
chain group; 0 is the priority of a severity-less change, so the fold base
does not change the value on the nonempty lists the organizer builds. -/
def maxPriority (l : List BatchReviewChange) : Nat :=
  l.foldl (fun m c => max m (severityPriority c.severity)) 0

/-- `_organizeChainGroupsAsync` (batchReview.ts): partition the batch into
standalone items and chain groups, sort standalone items by severity
descending, sort each group by position ascending, sort groups by their
maximum severity descending, and concatenate standalone items first, then
the flattened groups.  `chainInfo` models the cached `isChangeChained`
results keyed by Gerrit Change-Id; JavaScript `Array.prototype.sort` is
stable, which `List.insertionSort` with a total `≤`-style relation models
exactly. -/
def organizeChainGroups (chainInfo : String → Option GroupInfo)
    (batch : List BatchReviewChange) : List BatchReviewChange :=
  let standaloneChanges := batch.filter (fun c => (chainInfo c.changeId).isNone)
  let sortedStandalone :=
    List.insertionSort
      (fun a b => severityPriority b.severity ≤ severityPriority a.severity)
      standaloneChanges
  let chainArrays :=
    (collectGroups chainInfo batch).map
      (fun g => (List.insertionSort (fun a b => a.2 ≤ b.2) g.2).map Prod.fst)
  let sortedChains :=
    List.insertionSort (fun a b => maxPriority b ≤ maxPriority a) chainArrays
  sortedStandalone ++ sortedChains.flatten

/-! ## ChangeQueueStore operations (batchReview.ts) -/

/-- The severity assignment inside `_handleAddToBatch`: a score supplied for
the change id overrides the severity, otherwise the existing value is kept
(`change.severity = change.severity ?? undefined`). -/
def applyScore (scores : List (String × SeverityLevel))
    (c : BatchReviewChange) : BatchReviewChange :=
  match scores.lookup c.changeID with
  | some s => { c with severity := some s }
  | none => c

/-- `array.splice(insertAt, 0, ...newChanges)`. -/
def insertAllAt (i : Nat) (new old : List BatchReviewChange) :
    List BatchReviewChange :=
  old.take i ++ new ++ old.drop i

/-- `_handleAddToBatch` (batchReview.ts): move the matching incoming changes
into the batch, skipping ids already present in the batch, applying
supplied severities, splicing at `min dropIndex batch.length` when a
nonnegative drop index was sent, else appending. -/
def handleAddToBatch (ids : List String)
    (scores : List (String × SeverityLevel)) (dropIndex : Option Nat)
    (st : QState) : QState :=
  let changesToAdd := st.incoming.filter (fun c => ids.contains c.changeID)
  let incoming' := st.incoming.filter (fun c => !ids.contains c.changeID)
  let newChanges :=
    (changesToAdd.filter
      (fun c => !st.batch.any (fun b => b.changeID == c.changeID))).map
      (applyScore scores)
  let batch' :=
    match dropIndex with
    | some d =>
      if newChanges.isEmpty then st.batch ++ newChanges
      else insertAllAt (min d st.batch.length) newChanges st.batch
    | none => st.batch ++ newChanges
  ⟨incoming', batch'⟩

/-- The in-place `change.hasCodeReviewPlus2 = false` mutation applied when a
change leaves the batch (the green checkmark is batch-view-only). -/
def clearPlus2 (c : BatchReviewChange) : BatchReviewChange :=
  { c with hasCodeReviewPlus2 := false }

/-- `_handleRemoveFromBatch` (batchReview.ts): move the matching batch
changes back into the incoming queue, skipping ids already present there,
clearing the +2 flag on the moved objects. -/
def handleRemoveFromBatch (ids : List String) (dropIndex : Option Nat)
    (st : QState) : QState :=
  let changesToRemove := st.batch.filter (fun c => ids.contains c.changeID)
  let batch' := st.batch.filter (fun c => !ids.contains c.changeID)
  let newChanges :=
    (changesToRemove.filter
      (fun c => !st.incoming.any (fun x => x.changeID == c.changeID))).map
      clearPlus2
  let incoming' :=
    match dropIndex with
    | some d =>
      if newChanges.isEmpty then st.incoming ++ newChanges
      else insertAllAt (min d st.incoming.length) newChanges st.incoming
    | none => st.incoming ++ newChanges
  ⟨incoming', batch'⟩

/-- `_handleClearBatch` (batchReview.ts): push every batch change that is
not already in the incoming queue onto it (clearing the +2 flag via object
mutation), then empty the batch. -/
def handleClearBatch (st : QState) : QState :=
  let incoming' := st.batch.foldl
    (fun acc c =>
      if acc.any (fun x => x.changeID == c.changeID) then acc
      else acc ++ [clearPlus2 c])
    st.incoming
  ⟨incoming', []⟩

/-- `_handleGetIncomingReviews` (batchReview.ts), the refresh path: the
fetched list replaces the incoming queue after filtering out changes whose
id is already in the batch. -/
def handleGetIncomingReviews (fetched : List BatchReviewChange)
    (st : QState) : QState :=
  let batchChangeIDs := st.batch.map (·.changeID)
  ⟨fetched.filter (fun c => !batchChangeIDs.contains c.changeID), st.batch⟩

/-- The adjusted-drop-index loop of `_handleReorderChanges`: walk the
target array, counting items that are not being moved, and stop once the
count reaches the requested drop index. -/
def adjustedDropIndex (movingSet : List String) (dropIndex : Nat) :
    List BatchReviewChange → Nat → Nat
  | [], acc => acc
  | c :: rest, acc =>
    if acc < dropIndex then
      if movingSet.contains c.changeID then
        adjustedDropIndex movingSet dropIndex rest acc
      else adjustedDropIndex movingSet dropIndex rest (acc + 1)
    else acc

/-- `_handleReorderChanges` (batchReview.ts): partition the target array
into moving and remaining items (both keeping relative order), then splice
the moving items into the remaining ones at the adjusted index. -/
def reorderChanges (ids : List String) (dropIndex : Nat)
    (targetArray : List BatchReviewChange) : List BatchReviewChange :=
  let movingItems := targetArray.filter (fun c => ids.contains c.changeID)
  let remainingItems := targetArray.filter (fun c => !ids.contains c.changeID)
  let adjustedIndex := adjustedDropIndex ids dropIndex targetArray 0
  remainingItems.take adjustedIndex ++ movingItems ++
    remainingItems.drop adjustedIndex

/-- Dispatch of `reorderChanges` onto the queue named by `targetList`. -/
def handleReorderChanges (ids : List String) (targetBatch : Bool)
    (dropIndex : Nat) (st : QState) : QState :=
  if targetBatch then { st with batch := reorderChanges ids dropIndex st.batch }
  else { st with incoming := reorderChanges ids dropIndex st.incoming }

/-- The queue mutations quantified over by the dedup-invariant claim. -/
inductive BatchOp where
  | addToBatch (ids : List String) (scores : List (String × SeverityLevel))
      (dropIndex : Option Nat)
  | removeFromBatch (ids : List String) (dropIndex : Option Nat)
  | clearBatch
  | reorder (ids : List String) (targetBatch : Bool) (dropIndex : Nat)
  | replaceIncoming (items : List BatchReviewChange)

def applyOp (st : QState) : BatchOp → QState
  | .addToBatch ids scores d => handleAddToBatch ids scores d st
  | .removeFromBatch ids d => handleRemoveFromBatch ids d st
  | .clearBatch => handleClearBatch st
  | .reorder ids t d => handleReorderChanges ids t d st
  | .replaceIncoming items => handleGetIncomingReviews items st

def runOps (ops : List BatchOp) (st : QState) : QState := ops.foldl applyOp st

/-- The dedup invariant: no change id occurs twice across the two queues,
which covers both duplication within a queue and presence in both. -/
def DedupInv (st : QState) : Prop :=
  ((st.incoming ++ st.batch).map (·.changeID)).Nodup

/-- Side condition on an operation: a refresh payload (the result of one
backend change query, keyed by REST id) carries pairwise-distinct ids. -/
def opOK : BatchOp → Prop
  | .replaceIncoming items => (items.map (·.changeID)).Nodup
  | _ => True

instance : DecidablePred opOK := fun op =>
  match op with
  | .addToBatch _ _ _ => .isTrue trivial
  | .removeFromBatch _ _ => .isTrue trivial
  | .clearBatch => .isTrue trivial
  | .reorder _ _ _ => .isTrue trivial
  | .replaceIncoming items =>
    inferInstanceAs
      (Decidable ((items.map (fun c : BatchReviewChange => c.changeID)).Nodup))

/-! ## SubmissionGateway (`_handlePlus2AllAndSubmit` step 2, batchReview.ts) -/

/-- The re-fetched change object consulted immediately before submitting;
only its submittable flag is read. -/
structure FetchedChange where
  submittable : Bool
deriving DecidableEq, Repr

/-- The remote backend as seen by the submit loop: the per-change re-fetch
(`GerritChange.getChangeOnce`, `none` when not found), the result of
`api.submitWithDetails`, and its error text on failure. -/
structure SubmitEnv where
  fetch : String → Option FetchedChange
  submitOk : String → Bool
  submitErr : String → String

structure SubmitReport where
  submitSuccess : Nat
  submitFail : Nat
  submitErrors : List String
deriving DecidableEq, Repr

/-- One iteration of the submit loop in `_handlePlus2AllAndSubmit`:
a change that cannot be fetched fails with an error line, a non-submittable
change is skipped (counted as a failure, reported through a warning popup
rather than the error list), an accepted submit counts as success, and a
rejected one fails with the backend error text. -/
def submitStep (env : SubmitEnv) (acc : SubmitReport)
    (c : BatchReviewChange) : SubmitReport :=
  match env.fetch c.changeID with
  | none =>
    { acc with
        submitFail := acc.submitFail + 1,
        submitErrors := acc.submitErrors ++
          ["Change not found: " ++ c.changeID] }
  | some obj =>
    if !obj.submittable then { acc with submitFail := acc.submitFail + 1 }
    else if env.submitOk c.changeID then
      { acc with submitSuccess := acc.submitSuccess + 1 }
    else
      { acc with
          submitFail := acc.submitFail + 1,
          submitErrors := acc.submitErrors ++
            ["Failed to submit " ++ c.changeID ++ ": " ++
              env.submitErr c.changeID] }

/-- The submit phase of `_handlePlus2AllAndSubmit` and its effect on the
state: run the loop over the dependency-ordered changes, then execute
`this._state.batchChanges = []`.  The +2 phase before it only flips the
hasCodeReviewPlus2 flags and never changes queue membership, and
`_handleSubmitBatch` ends with the same wholesale assignment. -/
def plus2AllAndSubmitFinish (env : SubmitEnv)
    (ordered : List BatchReviewChange) (st : QState) :
    QState × SubmitReport :=
  let report := ordered.foldl (submitStep env) ⟨0, 0, []⟩
  ({ st with batch := [] }, report)

/-! ## AutomationServer request validation (server.ts, POST /batch) -/

/-- A parsed JSON value as far as the validators inspect it: a string, a
number, or anything else. -/
inductive JVal where
  | jstr (s : String)
  | jnum (n : Int)
  | jother
deriving DecidableEq, Repr

def FIXED_PORT : Nat := 45193

/-- `VALID_SEVERITIES` (server.ts). -/
def VALID_SEVERITIES : List String :=
  ["CRITICAL", "HIGH", "MEDIUM", "LOW", "APPROVED"]

/-- The element check of `validateChangeIDs`: a non-empty string under the
length ceiling. -/
def validChangeIDVal : JVal → Bool
  | .jstr s => 0 < s.length && s.length < 1000
  | _ => false

/-- `validateChangeIDs` (server.ts). -/
def validateChangeIDs (changeIDs : List JVal) : Bool :=
  changeIDs.all validChangeIDVal

/-- JavaScript object property assignment `scores[changeID] = score`: an
existing key is updated in place, a new key is appended. -/
def setScore (k v : String) :
    List (String × String) → List (String × String)
  | [] => [(k, v)]
  | (k', v') :: rest =>
    if k' = k then (k, v) :: rest else (k', v') :: setScore k v rest

/-- The score-validation loop of the POST /batch handler (server.ts):
a numeric score is rejected outright (legacy 1-10 scores are no longer
supported), a string must be one of the severity tokens, anything else is
rejected; the whole request fails on the first bad entry. -/
def validateScores :
    List (String × JVal) → List (String × String) →
    Except Unit (List (String × String))
  | [], acc => .ok acc
  | (id, v) :: rest, acc =>
    match v with
    | .jnum _ => .error ()
    | .jstr s =>
      if VALID_SEVERITIES.contains s then
        validateScores rest (setScore id s acc)
      else .error ()
    | .jother => .error ()

/-- The POST /batch body after `JSON.parse`; `none` components model a
missing `changeIDs` field or an absent / non-object `scores` field (the
`data.scores && typeof data.scores === 'object'` guard skips the latter). -/
structure PostBatchBody where
  changeIDs : Option (List JVal)
  scores : Option (List (String × JVal))
deriving DecidableEq, Repr

/-- Observable outcome of one POST /batch request: the HTTP status, whether
`callbacks.addToBatch` was invoked, and the validated scores passed to it. -/
structure PostResult where
  status : Nat
  addToBatchCalled : Bool
  scoresPassed : List (String × String) := []
deriving DecidableEq, Repr

/-- The POST /batch route of `handleRequest` (server.ts) from the point the
body has been read: a JSON parse failure (`none`), a missing or non-array
`changeIDs`, an invalid change id, or an invalid score entry each answer
400 without touching the queue; otherwise `addToBatch` runs and the
response is 200. -/
def handlePostBatch : Option PostBatchBody → PostResult
  | none => ⟨400, false, []⟩
  | some data =>
    match data.changeIDs with
    | none => ⟨400, false, []⟩
    | some ids =>
      if !validateChangeIDs ids then ⟨400, false, []⟩
      else
        match data.scores with
        | none => ⟨200, true, []⟩
        | some entries =>
          match validateScores entries [] with
          | .error _ => ⟨400, false, []⟩
          | .ok scores => ⟨200, true, scores⟩

/-- An invalid score entry in the sense of the claim: a number outside the
legacy 1-10 range, an unrecognized severity token, or a non-string
non-number value. -/
def invalidScoreEntry : JVal → Bool
  | .jnum n => n < 1 || 10 < n
  | .jstr s => !VALID_SEVERITIES.contains s
  | .jother => true

/-! ## ChainResolver (html/src/lib/api.ts) -/

/-- One entry of the related-changes response, base-to-tip linked but
returned tip-first by the backend. -/
structure ChangeChainEntry where
  commit : String
  change_id : String
deriving DecidableEq, Repr

/-- `getChangeChain` (api.ts): a failed request, an unparsable body, or a
related list with fewer than two changes all yield the empty chain;
`none` models the failure cases. -/
def getChangeChain : Option (List ChangeChainEntry) → List ChangeChainEntry
  | none => []
  | some cs => if cs.length < 2 then [] else cs

/-- `ChainInfoResult` (api.ts). -/
structure ChainInfoResult where
  inChain : Bool
  position : Option Nat := none
  length : Option Nat := none
  chainNumber : Option Nat := none
  chainBaseChangeId : Option String := none
deriving DecidableEq, Repr

/-- `isChangeChained` (api.ts) with its network effects made explicit:
`apiOk` is the availability of the API instance, `related` the raw related
response, `selfChangeId` the Gerrit Change-Id resolved from the detail
fetch (`none` on failure), `statusOf` the per-member lifecycle status from
each detail fetch (`none` when the fetch failed or carried no status), and
`numberOf` the `_number` of the base change.  Members whose status is
MERGED are filtered out before the position and length are computed, the
base is the last entry of the active chain, and the position counts from
the base (1) toward the tip. -/
def isChangeChained (apiOk : Bool)
    (related : Option (List ChangeChainEntry))
    (selfChangeId : Option String) (statusOf : String → Option String)
    (numberOf : String → Option Nat) : ChainInfoResult :=
  if !apiOk then { inChain := false }
  else
    let chain := getChangeChain related
    if chain.isEmpty then { inChain := false }
    else
      match selfChangeId with
      | none => { inChain := false }
      | some gerritChangeId =>
        let activeChain :=
          chain.filter (fun e => !(statusOf e.change_id == some "MERGED"))
        let activeIdx :=
          activeChain.findIdx? (fun e => e.change_id == gerritChangeId)
        let baseChangeId := (activeChain.getLast?).map (·.change_id)
        { inChain := decide (1 < activeChain.length)
          position :=
            match activeIdx with
            | some i =>
              if 1 < activeChain.length then some (activeChain.length - i)
              else none
            | none => none
          length :=
            if 1 < activeChain.length then some activeChain.length else none
          chainNumber := baseChangeId.bind numberOf
          chainBaseChangeId := baseChangeId }

/-! ## SelectionStateMachine (handleSelectionEvent, ChangeList webview) -/

/-- The webview-side chain info attached to an item; the selection handler
only consults `chainNumber`. -/
structure SelChainInfo where
  inChain : Bool := false
  position : Option Nat := none
  length : Option Nat := none
  chainNumber : Option Nat := none
deriving DecidableEq, Repr

inductive SelAction where
  | toggle
  | range
  | anchor
  | chain
deriving DecidableEq, Repr

/-- `SelectionEvent` (ChangeItem.tsx). -/
structure SelectionEvent where
  changeID : String
  index : Nat
  action : SelAction
  chainNumber : Option Nat := none
deriving DecidableEq, Repr

/-- The per-list selection state: the `Set<string>` of selected REST ids
(modelled as an insertion-ordered duplicate-free list) and the anchor
index for range selection. -/
structure SelState where
  selected : List String
  anchorIndex : Option Nat
deriving DecidableEq, Repr

/-- `Set.add`. -/
def setAdd (s : List String) (id : String) : List String :=
  if s.contains id then s else s ++ [id]

/-- `Set.delete`. -/
def setRemove (s : List String) (id : String) : List String :=
  s.filter (fun x => x != id)

/-- `applyMultiSelect` with mode `add` (BatchReviewPane.tsx): union the ids
into the previous selection. -/
def applyMultiSelectAdd (s ids : List String) : List String :=
  ids.foldl setAdd s

/-- The `changes.slice(fromIdx, toIdx + 1).map(c => c.changeID)` range of
the shift-click handler, between the anchor (or 0 when unset) and the
clicked index, inclusive. -/
def rangeIDs (changes : List BatchReviewChange) (anchorIndex : Option Nat)
    (index : Nat) : List String :=
  let startIndex := anchorIndex.getD 0
  let fromIdx := min startIndex index
  let toIdx := max startIndex index
  ((changes.drop fromIdx).take (toIdx + 1 - fromIdx)).map (·.changeID)

/-- The chain-membership scan of the `chain` case: items of the current
list whose chain info carries the clicked chain number. -/
def chainMemberIDs (changes : List BatchReviewChange)
    (m : String → Option SelChainInfo) (n : Nat) : List String :=
  (changes.filter (fun c =>
    match m c.changeId with
    | some info => info.chainNumber == some n
    | none => false)).map (·.changeID)

/-- `handleSelectionEvent` (ChangeList.tsx): toggle flips the clicked id
and moves the anchor; range unions the ids between the anchor (or 0) and
the clicked index without touching the anchor; anchor only moves the
anchor; chain unions all members of the clicked chain (the JS guard
`chainNumber && chainInfoMap` makes a missing map or a zero chain number a
no-op on the selection) and moves the anchor. -/
def handleSelectionEvent (changes : List BatchReviewChange)
    (chainInfoMap : Option (String → Option SelChainInfo))
    (st : SelState) (ev : SelectionEvent) : SelState :=
  match ev.action with
  | .toggle =>
    let isCurrentlySelected := st.selected.contains ev.changeID
    { selected :=
        if isCurrentlySelected then setRemove st.selected ev.changeID
        else setAdd st.selected ev.changeID
      anchorIndex := some ev.index }
  | .range =>
    { selected :=
        applyMultiSelectAdd st.selected (rangeIDs changes st.anchorIndex ev.index)
      anchorIndex := st.anchorIndex }
  | .anchor => { st with anchorIndex := some ev.index }
  | .chain =>
    let selected' :=
      match ev.chainNumber, chainInfoMap with
      | some n, some m =>
        if n == 0 then st.selected
        else
          let ids := chainMemberIDs changes m n
          if ids.isEmpty then st.selected
          else applyMultiSelectAdd st.selected ids
      | _, _ => st.selected
    { selected := selected', anchorIndex := some ev.index }

/-! ## AutomationServer lifecycle (server.ts) -/

/-- The closure state of `createBatchReviewApiServer`: whether `server` is
non-null, the stored `port`, and the `starting` flag. -/
structure ServerState where
  serverExists : Bool
  port : Option Nat
  starting : Bool
deriving DecidableEq, Repr

/-- How one `start()` call ends. -/
inductive StartOutcome where
  | resolvedExisting (p : Nat)
  | rejectedAlreadyStarting
  | bound (p : Nat)
  | bindFailed
deriving DecidableEq, Repr

/-- `start()` (server.ts) with the listen callback folded in: an already
running server answers its stored port at once, a start in progress is
rejected with an error, otherwise one listener is created (the third
component counts `http.createServer` calls) and binding either succeeds,
recording the fixed port, or fails, reverting the closure state. -/
def startServer (st : ServerState) (bindOk : Bool) :
    ServerState × StartOutcome × Nat :=
  match st.serverExists, st.port with
  | true, some p => (st, .resolvedExisting p, 0)
  | _, _ =>
    if st.starting then (st, .rejectedAlreadyStarting, 0)
    else if bindOk then
      (⟨true, some FIXED_PORT, false⟩, .bound FIXED_PORT, 1)
    else (⟨false, none, false⟩, .bindFailed, 1)

/-- `stop()` (server.ts), successful-close path: a null server is a no-op,
otherwise server and port are cleared. -/
def stopServer (st : ServerState) : ServerState :=
  if st.serverExists then ⟨false, none, st.starting⟩ else st

/-- `getPort()` (server.ts): the closure ignores its state and returns the
fixed port. -/
def getPort (_st : ServerState) : Option Nat :=
  some FIXED_PORT

/-! ## Concrete inputs used by counterexamples and witnesses -/

/-- A two-member chain based at change X (position 1) with dependent Y
(position 2); change H is standalone. -/
def cx1Info : String → Option GroupInfo := fun id =>
  if id = "Ix" then some ⟨1, "Ix"⟩
  else if id = "Iy" then some ⟨2, "Ix"⟩
  else none

/-- Batch containing the CRITICAL chain base X, its dependent Y, and a
standalone HIGH change H. -/
def cx1Batch : List BatchReviewChange :=
  [{ changeID := "X", changeId := "Ix", severity := some .CRITICAL },
   { changeID := "Y", changeId := "Iy" },
   { changeID := "H", changeId := "Ih", severity := some .HIGH }]

def cx2A : BatchReviewChange := { changeID := "A", changeId := "Ia" }

def cx2B : BatchReviewChange := { changeID := "B", changeId := "Ib" }

/-- Backend where A is submittable and submits cleanly while B is fetched
but reported non-submittable, so the loop skips B. -/
def cx2Env : SubmitEnv :=
  { fetch := fun id =>
      if id == "A" then some ⟨true⟩
      else if id == "B" then some ⟨false⟩
      else none
    submitOk := fun id => id == "A"
    submitErr := fun _ => "backend error" }

def cx3X : BatchReviewChange := { changeID := "X", changeId := "IX" }

/-- A refresh whose payload mentions the same REST id twice. -/
def cx3Ops : List BatchOp := [.replaceIncoming [cx3X, cx3X]]

def cx7c1 : BatchReviewChange := { changeID := "C1r", changeId := "I1" }

def cx7c2 : BatchReviewChange := { changeID := "C2r", changeId := "I2" }

/-- Both list items belong to chain number 7. -/
def cx7Map : String → Option SelChainInfo := fun id =>
  if id = "I1" || id = "I2" then some { chainNumber := some 7 } else none

def cx7Changes : List BatchReviewChange := [cx7c1, cx7c2]

/-- Selection state in which every member of chain 7 is already selected. -/
def cx7St : SelState := { selected := ["C1r", "C2r"], anchorIndex := none }

/-- A chain-badge click on the first item of chain 7. -/
def cx7Ev : SelectionEvent :=
  { changeID := "C1r", index := 0, action := .chain, chainNumber := some 7 }

def cx8Changes : List BatchReviewChange :=
  [{ changeID := "R0", changeId := "J0" },
   { changeID := "R1", changeId := "J1" },
   { changeID := "R2", changeId := "J2" }]

/-- Shift-click on index 2 of a list with no anchor set. -/
def cx8St : SelState := { selected := [], anchorIndex := none }

def cx8Ev : SelectionEvent :=
  { changeID := "R2", index := 2, action := .range }

/-- The active (unmerged) chain computed inside `isChangeChained`: the
related chain with MERGED members filtered out. -/
def activeChainOf (related : Option (List ChangeChainEntry))
    (statusOf : String → Option String) : List ChangeChainEntry :=
  (getChangeChain related).filter
    (fun e => !(statusOf e.change_id == some "MERGED"))

/-- A three-member related chain, tip-first as the backend returns it:
tip Itip, middle Imid, base Ibase. -/
def cx6Related : Option (List ChangeChainEntry) :=
  some [⟨"c3", "Itip"⟩, ⟨"c2", "Imid"⟩, ⟨"c1", "Ibase"⟩]

/-- The middle member is already merged, the others are open. -/
def cx6Status : String → Option String := fun id =>
  if id = "Imid" then some "MERGED" else some "NEW"

def cx6Num : String → Option Nat := fun id =>
  if id = "Ibase" then some 101 else none

/-- A related response with a single change, which the chain fetch treats
as no chain at all. -/
def cx6Single : Option (List ChangeChainEntry) := some [⟨"c1", "Ionly"⟩]

/-! ## Lemmas about the organizer partition -/

theorem insertGroup_forall {P : BatchReviewChange × Nat → Prop}
    {key : String} {v : BatchReviewChange × Nat}
    {m : List (String × List (BatchReviewChange × Nat))}
    (hv : P v) (hm : ∀ k g, (k, g) ∈ m → ∀ p ∈ g, P p) :
    ∀ k g, (k, g) ∈ insertGroup key v m → ∀ p ∈ g, P p := by
  induction m with
  | nil =>
    intro k g hkg p hp
    simp [insertGroup] at hkg
    rw [hkg.2] at hp
    simp at hp
    rw [hp]; exact hv
  | cons hd tl ih =>
    obtain ⟨k0, g0⟩ := hd
    intro k g hkg p hp
    simp only [insertGroup] at hkg
    by_cases hk : k0 = key
    · simp only [if_pos hk, List.mem_cons] at hkg
      rcases hkg with heq | hmem
      · rw [Prod.mk.injEq] at heq
        obtain ⟨h1, h2⟩ := heq
        subst h1; subst h2
        rcases List.mem_append.mp hp with h1 | h2
        · exact hm k g0 (List.mem_cons_self _ _) p h1
        · simp at h2; rw [h2]; exact hv
      · exact hm k g (List.mem_cons_of_mem _ hmem) p hp
    · simp only [if_neg hk, List.mem_cons] at hkg
      rcases hkg with heq | hmem
      · rw [Prod.mk.injEq] at heq
        obtain ⟨h1, h2⟩ := heq
        subst h1; subst h2
        exact hm k g (List.mem_cons_self _ _) p hp
      · exact ih (fun k g h => hm k g (List.mem_cons_of_mem _ h)) k g hmem p hp

theorem collectGroups_forall (chainInfo : String → Option GroupInfo)
    (batch : List BatchReviewChange) :
    ∀ k g, (k, g) ∈ collectGroups chainInfo batch →
      ∀ p ∈ g, (chainInfo p.1.changeId).isSome := by
  suffices h : ∀ (l : List BatchReviewChange)
      (m : List (String × List (BatchReviewChange × Nat))),
      (∀ k g, (k, g) ∈ m → ∀ p ∈ g, (chainInfo p.1.changeId).isSome) →
      ∀ k g,
        (k, g) ∈ l.foldl
          (fun m c =>
            match chainInfo c.changeId with
            | some info => insertGroup info.chainBase (c, info.position) m
            | none => m) m →
        ∀ p ∈ g, (chainInfo p.1.changeId).isSome by
    exact h batch [] (by intro k g hkg; simp at hkg)
  intro l
  induction l with
  | nil => intro m hm k g hkg; simpa using hm k g hkg
  | cons c cs ih =>
    intro m hm k g hkg
    simp only [List.foldl_cons] at hkg
    rcases hinfo : chainInfo c.changeId with _ | info
    · rw [hinfo] at hkg
      exact ih m hm k g hkg
    · rw [hinfo] at hkg
      refine ih _ ?_ k g hkg
      exact insertGroup_forall (by simp [hinfo]) hm

theorem mem_flatten_chains (chainInfo : String → Option GroupInfo)
    (batch : List BatchReviewChange) (x : BatchReviewChange)
    (hx : x ∈ (List.insertionSort (fun a b => maxPriority b ≤ maxPriority a)
        ((collectGroups chainInfo batch).map
          (fun g => (List.insertionSort (fun a b => a.2 ≤ b.2) g.2).map
            Prod.fst))).flatten) :
    (chainInfo x.changeId).isSome := by
  rw [List.mem_flatten] at hx
  obtain ⟨l, hl, hxl⟩ := hx
  rw [List.mem_insertionSort] at hl
  rw [List.mem_map] at hl
  obtain ⟨⟨k, g⟩, hkg, rfl⟩ := hl
  rw [List.mem_map] at hxl
  obtain ⟨p, hp, rfl⟩ := hxl
  rw [List.mem_insertionSort] at hp
  exact collectGroups_forall chainInfo batch k g hkg p hp

theorem mem_standalone_part (chainInfo : String → Option GroupInfo)
    (batch : List BatchReviewChange) (x : BatchReviewChange)
    (hx : x ∈ List.insertionSort
      (fun a b => severityPriority b.severity ≤ severityPriority a.severity)
      (batch.filter (fun c => (chainInfo c.changeId).isNone))) :
    chainInfo x.changeId = none := by
  rw [List.mem_insertionSort] at hx
  have := List.of_mem_filter hx
  simpa [Option.isNone_iff_eq_none] using this

/-- C1.  The claim as stated is false on the code: the computed order
always places standalone items first and chain groups after them, so at
the concrete batch of `cx1Batch` (a CRITICAL chain and a standalone HIGH
item) the chain members X and Y land strictly after the standalone HIGH
item H instead of at or before it. -/
theorem organize_chain_after_high_cx :
    ((organizeChainGroups cx1Info cx1Batch).map (·.changeID) =
      ["H", "X", "Y"]) ∧
    ¬ (((organizeChainGroups cx1Info cx1Batch).map (·.changeID)).indexOf "X" ≤
        ((organizeChainGroups cx1Info cx1Batch).map (·.changeID)).indexOf "H") := by
  decide

/-- C1 (amended).  In the computed order of the batch queue, every member
of a chain group is placed at or after every standalone item, in
particular at or after a standalone HIGH item even when the chain contains
a CRITICAL member. -/
theorem organize_standalone_precedes_chains
    (chainInfo : String → Option GroupInfo) (batch : List BatchReviewChange)
    (i j : Nat) (hi : i < (organizeChainGroups chainInfo batch).length)
    (hj : j < (organizeChainGroups chainInfo batch).length)
    (hchain :
      (chainInfo ((organizeChainGroups chainInfo batch)[i]).changeId).isSome)
    (_hhigh :
      ((organizeChainGroups chainInfo batch)[j]).severity = some .HIGH)
    (hstand :
      chainInfo ((organizeChainGroups chainInfo batch)[j]).changeId = none) :
    j ≤ i := by
  by_contra hcon
  push_neg at hcon
  set A := List.insertionSort
      (fun a b => severityPriority b.severity ≤ severityPriority a.severity)
      (batch.filter (fun c => (chainInfo c.changeId).isNone)) with hA
  set B := (List.insertionSort (fun a b => maxPriority b ≤ maxPriority a)
      ((collectGroups chainInfo batch).map
        (fun g => (List.insertionSort (fun a b => a.2 ≤ b.2) g.2).map
          Prod.fst))).flatten with hB
  have hsplit : organizeChainGroups chainInfo batch = A ++ B := rfl
  have hjA : j < A.length := by
    by_contra hge
    push_neg at hge
    have hj' : j < (A ++ B).length := by rw [← hsplit]; exact hj
    have hjb : j - A.length < B.length := by
      rw [List.length_append] at hj'
      omega
    have e1 : (organizeChainGroups chainInfo batch)[j] = (A ++ B)[j] :=
      List.getElem_of_eq hsplit hj
    have e2 : (A ++ B)[j] = B[j - A.length] :=
      List.getElem_append_right hge
    have hmem : (organizeChainGroups chainInfo batch)[j] ∈ B := by
      rw [e1, e2]
      exact List.getElem_mem _
    have := mem_flatten_chains chainInfo batch _ hmem
    rw [hstand] at this
    simp at this
  have hiA : i < A.length := lt_trans hcon hjA
  have hgi : (organizeChainGroups chainInfo batch)[i] ∈ A := by
    have hi' : i < (A ++ B).length := by rw [← hsplit]; exact hi
    have e1 : (organizeChainGroups chainInfo batch)[i] = (A ++ B)[i] :=
      List.getElem_of_eq hsplit hi
    have e2 : (A ++ B)[i] = A[i] := List.getElem_append_left hiA
    rw [e1, e2]
    exact List.getElem_mem _
  have := mem_standalone_part chainInfo batch _ hgi
  rw [this] at hchain
  simp at hchain

/-- C1 witness: in the organized `cx1Batch`, index 1 holds a chain member,
index 0 holds the standalone HIGH item, and the theorem places the
standalone item at or before the chain member. -/
theorem organize_standalone_precedes_chains_witness :
    (cx1Info (((organizeChainGroups cx1Info cx1Batch).get
        ⟨1, by decide⟩).changeId)).isSome ∧
    cx1Info (((organizeChainGroups cx1Info cx1Batch).get
        ⟨0, by decide⟩).changeId) = none ∧
    (0 : Nat) ≤ 1 :=
  ⟨by decide, by decide,
    organize_standalone_precedes_chains cx1Info cx1Batch 1 0
      (by decide) (by decide) (by decide) (by decide) (by decide)⟩

/-- C2.  The claim as stated is false on the code: running the submit
phase on [A, B] where B is fetched but not submittable leaves A submitted
(1 success), B skipped (1 failure), and the batch queue cleared entirely,
so B does not remain in the Batch queue for retry. -/
theorem submitAll_clears_skipped_cx :
    (plus2AllAndSubmitFinish cx2Env [cx2A, cx2B]
        ⟨[], [cx2A, cx2B]⟩).1.batch = [] ∧
    cx2B ∉ (plus2AllAndSubmitFinish cx2Env [cx2A, cx2B]
        ⟨[], [cx2A, cx2B]⟩).1.batch ∧
    (plus2AllAndSubmitFinish cx2Env [cx2A, cx2B]
        ⟨[], [cx2A, cx2B]⟩).2.submitSuccess = 1 ∧
    (plus2AllAndSubmitFinish cx2Env [cx2A, cx2B]
        ⟨[], [cx2A, cx2B]⟩).2.submitFail = 1 := by
  decide

/-- C2 (amended).  After the submit phase completes, the Batch queue is
cleared wholesale: every item, those whose submit failed or was skipped as
non-submittable included, is removed from the Batch queue; failures
survive only in the counters and error list of the report. -/
theorem submitAll_clears_entire_batch (env : SubmitEnv)
    (ordered : List BatchReviewChange) (st : QState)
    (c : BatchReviewChange) (_hc : c ∈ st.batch) :
    (plus2AllAndSubmitFinish env ordered st).1.batch = [] ∧
    c ∉ (plus2AllAndSubmitFinish env ordered st).1.batch := by
  exact ⟨rfl, by simp [plus2AllAndSubmitFinish]⟩

/-- C2 witness: the non-submittable change B of the concrete run is in the
batch before the call and absent afterwards. -/
theorem submitAll_clears_entire_batch_witness :
    cx2B ∈ (QState.mk [] [cx2A, cx2B]).batch ∧
    (plus2AllAndSubmitFinish cx2Env [cx2A, cx2B]
        ⟨[], [cx2A, cx2B]⟩).1.batch = [] ∧
    cx2B ∉ (plus2AllAndSubmitFinish cx2Env [cx2A, cx2B]
        ⟨[], [cx2A, cx2B]⟩).1.batch :=
  ⟨by decide,
    submitAll_clears_entire_batch cx2Env [cx2A, cx2B] ⟨[], [cx2A, cx2B]⟩
      cx2B (by decide)⟩

/-! ## Lemmas about splicing and reordering -/

theorem splice_perm (adj : Nat) (moving remaining : List BatchReviewChange) :
    (remaining.take adj ++ moving ++ remaining.drop adj).Perm
      (moving ++ remaining) := by
  have h1 : remaining.take adj ++ moving ++ remaining.drop adj =
      remaining.take adj ++ (moving ++ remaining.drop adj) := by
    rw [List.append_assoc]
  have h2 : (remaining.take adj ++ (moving ++ remaining.drop adj)).Perm
      (remaining.take adj ++ (remaining.drop adj ++ moving)) :=
    List.Perm.append_left _ List.perm_append_comm
  have h3 : remaining.take adj ++ (remaining.drop adj ++ moving) =
      remaining.take adj ++ remaining.drop adj ++ moving := by
    rw [List.append_assoc]
  have h4 : remaining.take adj ++ remaining.drop adj ++ moving =
      remaining ++ moving := by
    rw [List.take_append_drop]
  rw [h1]
  exact h2.trans (by rw [h3, h4]; exact List.perm_append_comm)

theorem insertAllAt_perm (i : Nat) (new old : List BatchReviewChange) :
    (insertAllAt i new old).Perm (old ++ new) := by
  unfold insertAllAt
  exact (splice_perm i new old).trans List.perm_append_comm

theorem reorderChanges_perm (ids : List String) (d : Nat)
    (l : List BatchReviewChange) : (reorderChanges ids d l).Perm l := by
  unfold reorderChanges
  exact (splice_perm _ _ _).trans (List.filter_append_perm _ l)

theorem reorderChanges_filter_not_moved (ids : List String) (d : Nat)
    (l : List BatchReviewChange) :
    (reorderChanges ids d l).filter (fun c => !ids.contains c.changeID) =
      l.filter (fun c => !ids.contains c.changeID) := by
  unfold reorderChanges
  have hmov : (l.filter (fun c => ids.contains c.changeID)).filter
      (fun c => !ids.contains c.changeID) = [] := by
    rw [List.filter_eq_nil_iff]
    intro a ha
    have := List.of_mem_filter ha
    simpa using this
  have htake : ((l.filter (fun c => !ids.contains c.changeID)).take
      (adjustedDropIndex ids d l 0)).filter
      (fun c => !ids.contains c.changeID) =
      (l.filter (fun c => !ids.contains c.changeID)).take
        (adjustedDropIndex ids d l 0) := by
    rw [List.filter_eq_self]
    intro a ha
    have ha' : a ∈ l.filter (fun c => !ids.contains c.changeID) :=
      List.mem_of_mem_take ha
    have hres := List.of_mem_filter ha'
    exact hres
  have hdrop : ((l.filter (fun c => !ids.contains c.changeID)).drop
      (adjustedDropIndex ids d l 0)).filter
      (fun c => !ids.contains c.changeID) =
      (l.filter (fun c => !ids.contains c.changeID)).drop
        (adjustedDropIndex ids d l 0) := by
    rw [List.filter_eq_self]
    intro a ha
    have ha' : a ∈ l.filter (fun c => !ids.contains c.changeID) :=
      List.mem_of_mem_drop ha
    have hres := List.of_mem_filter ha'
    exact hres
  rw [List.filter_append, List.filter_append, hmov, htake, hdrop]
  rw [List.append_nil, List.take_append_drop]

/-- C5.  Reordering a subset of ids leaves the relative order of all items
not in the moved set unchanged (their subsequence is literally equal) and
the resulting queue is a permutation of the original, hence contains
exactly the same items. -/
theorem reorder_preserves_others_and_members (ids : List String) (d : Nat)
    (l : List BatchReviewChange) :
    (reorderChanges ids d l).filter (fun c => !ids.contains c.changeID) =
        l.filter (fun c => !ids.contains c.changeID) ∧
      (reorderChanges ids d l).Perm l :=
  ⟨reorderChanges_filter_not_moved ids d l, reorderChanges_perm ids d l⟩

/-! ## Lemmas about the dedup invariant -/

theorem applyScore_changeID (scores : List (String × SeverityLevel))
    (c : BatchReviewChange) : (applyScore scores c).changeID = c.changeID := by
  unfold applyScore
  cases scores.lookup c.changeID <;> rfl

theorem clearPlus2_changeID (c : BatchReviewChange) :
    (clearPlus2 c).changeID = c.changeID := rfl

theorem dedup_dup_filter_vacuous (src dst : List BatchReviewChange)
    (f : BatchReviewChange → Bool)
    (h : ((src ++ dst).map (·.changeID)).Nodup) :
    (src.filter f).filter
        (fun c => !dst.any (fun b => b.changeID == c.changeID)) =
      src.filter f := by
  rw [List.map_append, List.nodup_append] at h
  rw [List.filter_eq_self]
  intro c hc
  have hcin : c ∈ src := List.mem_of_mem_filter hc
  have hdisj : c.changeID ∉ dst.map (·.changeID) :=
    h.2.2 (List.mem_map_of_mem _ hcin)
  have hany : dst.any (fun b => b.changeID == c.changeID) = false := by
    rw [List.any_eq_false]
    intro b hb
    intro heq
    exact hdisj (List.mem_map.mpr ⟨b, hb, by simpa using heq⟩)
  simp [hany]

/-- Moving the `f`-matching items of `src` into `dst` through an
id-preserving transform keeps the combined id list duplicate-free, for any
destination that is a permutation of appending the moved items. -/
theorem move_nodup (src dst : List BatchReviewChange)
    (f : BatchReviewChange → Bool)
    (tr : BatchReviewChange → BatchReviewChange)
    (htr : ∀ c, (tr c).changeID = c.changeID)
    (dst' : List BatchReviewChange)
    (hdst' : (dst'.map (·.changeID)).Perm
      ((dst ++ ((src.filter f).filter
        (fun c => !dst.any (fun b => b.changeID == c.changeID))).map
          tr).map (·.changeID)))
    (h : ((src ++ dst).map (·.changeID)).Nodup) :
    ((src.filter (fun c => !f c) ++ dst').map (·.changeID)).Nodup := by
  have hvac := dedup_dup_filter_vacuous src dst f h
  rw [hvac] at hdst'
  have htrmap : (((src.filter f).map tr).map (·.changeID)) =
      (src.filter f).map (·.changeID) := by
    rw [List.map_map]
    exact List.map_congr_left (fun c _ => htr c)
  -- the permutation from the new combined id list to the old one
  have hsplitsrc :
      ((src.filter f).map (·.changeID) ++
        (src.filter (fun c => !f c)).map (·.changeID)).Perm
        (src.map (·.changeID)) := by
    have := List.filter_append_perm f src
    have hm := this.map (·.changeID)
    rw [List.map_append] at hm
    exact hm
  have hP : ((src.filter (fun c => !f c) ++ dst').map (·.changeID)).Perm
      ((src ++ dst).map (·.changeID)) := by
    rw [List.map_append, List.map_append]
    have p1 : ((src.filter (fun c => !f c)).map (·.changeID) ++
        dst'.map (·.changeID)).Perm
        ((src.filter (fun c => !f c)).map (·.changeID) ++
          (dst.map (·.changeID) ++ (src.filter f).map (·.changeID))) := by
      refine List.Perm.append_left _ ?_
      have := hdst'
      rw [List.map_append, htrmap] at this
      exact this
    have p2 : ((src.filter (fun c => !f c)).map (·.changeID) ++
        (dst.map (·.changeID) ++ (src.filter f).map (·.changeID))).Perm
        ((src.filter (fun c => !f c)).map (·.changeID) ++
          ((src.filter f).map (·.changeID) ++ dst.map (·.changeID))) :=
      List.Perm.append_left _ List.perm_append_comm
    have p3 : ((src.filter (fun c => !f c)).map (·.changeID) ++
        ((src.filter f).map (·.changeID) ++ dst.map (·.changeID))) =
        ((src.filter (fun c => !f c)).map (·.changeID) ++
          (src.filter f).map (·.changeID)) ++ dst.map (·.changeID) := by
      rw [List.append_assoc]
    have p4 : (((src.filter (fun c => !f c)).map (·.changeID) ++
        (src.filter f).map (·.changeID)) ++ dst.map (·.changeID)).Perm
        (((src.filter f).map (·.changeID) ++
          (src.filter (fun c => !f c)).map (·.changeID)) ++
            dst.map (·.changeID)) :=
      List.Perm.append_right _ List.perm_append_comm
    have p5 : (((src.filter f).map (·.changeID) ++
        (src.filter (fun c => !f c)).map (·.changeID)) ++
          dst.map (·.changeID)).Perm
        (src.map (·.changeID) ++ dst.map (·.changeID)) :=
      List.Perm.append_right _ hsplitsrc
    exact (((p1.trans p2).trans (p3 ▸ p4)).trans p5)
  exact hP.symm.nodup h

theorem dedup_addToBatch (ids : List String)
    (scores : List (String × SeverityLevel)) (d : Option Nat) (st : QState)
    (h : DedupInv st) : DedupInv (handleAddToBatch ids scores d st) := by
  unfold DedupInv handleAddToBatch
  dsimp only
  refine move_nodup st.incoming st.batch
    (fun c => ids.contains c.changeID) (applyScore scores)
    (applyScore_changeID scores) _ ?_ h
  cases d with
  | none => exact .refl _
  | some dd =>
    by_cases hE : (((st.incoming.filter
        (fun c => ids.contains c.changeID)).filter
          (fun c => !st.batch.any
            (fun b => b.changeID == c.changeID))).map
              (applyScore scores)).isEmpty
    · simp only [hE, if_true]
      exact .refl _
    · simp only [hE, if_false]
      exact (insertAllAt_perm _ _ _).map _

theorem dedup_removeFromBatch (ids : List String) (d : Option Nat)
    (st : QState) (h : DedupInv st) :
    DedupInv (handleRemoveFromBatch ids d st) := by
  unfold DedupInv handleRemoveFromBatch
  dsimp only
  rw [List.map_append, List.nodup_append_comm, ← List.map_append]
  have h' : ((st.batch ++ st.incoming).map (·.changeID)).Nodup := by
    rw [List.map_append, List.nodup_append_comm, ← List.map_append]
    exact h
  refine move_nodup st.batch st.incoming
    (fun c => ids.contains c.changeID) clearPlus2
    clearPlus2_changeID _ ?_ h'
  cases d with
  | none => exact .refl _
  | some dd =>
    by_cases hE : (((st.batch.filter
        (fun c => ids.contains c.changeID)).filter
          (fun c => !st.incoming.any
            (fun x => x.changeID == c.changeID))).map clearPlus2).isEmpty
    · simp only [hE, if_true]
      exact .refl _
    · simp only [hE, if_false]
      exact (insertAllAt_perm _ _ _).map _

theorem foldClear_eq :
    ∀ (rest acc : List BatchReviewChange),
      ((acc ++ rest).map (·.changeID)).Nodup →
      rest.foldl
        (fun acc c =>
          if acc.any (fun x => x.changeID == c.changeID) then acc
          else acc ++ [clearPlus2 c]) acc
        = acc ++ rest.map clearPlus2 := by
  intro rest
  induction rest with
  | nil => intro acc _; simp
  | cons c cs ih =>
    intro acc h
    rw [List.foldl_cons]
    have hnot : acc.any (fun x => x.changeID == c.changeID) = false := by
      rw [List.any_eq_false]
      intro x hx heq
      rw [List.map_append, List.nodup_append] at h
      refine h.2.2 (List.mem_map_of_mem _ hx) ?_
      simp only [List.map_cons, List.mem_cons]
      left
      simpa using heq
    rw [if_neg (by simp [hnot])]
    have h' : (((acc ++ [clearPlus2 c]) ++ cs).map (·.changeID)).Nodup := by
      have heq : ((acc ++ [clearPlus2 c]) ++ cs).map (·.changeID) =
          (acc ++ c :: cs).map (·.changeID) := by
        simp [clearPlus2, List.append_assoc]
      rw [heq]
      exact h
    rw [ih _ h']
    simp [List.append_assoc]

theorem dedup_clearBatch (st : QState) (h : DedupInv st) :
    DedupInv (handleClearBatch st) := by
  unfold DedupInv handleClearBatch
  dsimp only
  rw [foldClear_eq st.batch st.incoming h]
  rw [List.append_nil]
  have heq : (st.incoming ++ st.batch.map clearPlus2).map (·.changeID) =
      (st.incoming ++ st.batch).map (·.changeID) := by
    simp [clearPlus2]
  rw [heq]
  exact h

theorem dedup_replaceIncoming (items : List BatchReviewChange) (st : QState)
    (hitems : (items.map (·.changeID)).Nodup) (h : DedupInv st) :
    DedupInv (handleGetIncomingReviews items st) := by
  unfold DedupInv handleGetIncomingReviews
  dsimp only
  rw [List.map_append, List.nodup_append]
  refine ⟨?_, ?_, ?_⟩
  · exact hitems.sublist ((List.filter_sublist _).map _)
  · unfold DedupInv at h
    rw [List.map_append, List.nodup_append] at h
    exact h.2.1
  · intro a ha hb
    rw [List.mem_map] at ha
    obtain ⟨c, hc, rfl⟩ := ha
    have hkeep := List.of_mem_filter hc
    simp only [Bool.not_eq_true'] at hkeep
    have : c.changeID ∈ st.batch.map (·.changeID) := hb
    exact absurd this (by simpa using hkeep)

theorem dedup_reorder (ids : List String) (t : Bool) (d : Nat) (st : QState)
    (h : DedupInv st) : DedupInv (handleReorderChanges ids t d st) := by
  unfold DedupInv at h ⊢
  unfold handleReorderChanges
  cases t with
  | true =>
    simp only [if_true]
    have hperm : ((st.incoming ++ reorderChanges ids d st.batch).map
        (·.changeID)).Perm ((st.incoming ++ st.batch).map (·.changeID)) :=
      (List.Perm.append_left _ (reorderChanges_perm ids d st.batch)).map _
    exact hperm.symm.nodup h
  | false =>
    simp only [Bool.false_eq_true, if_false]
    have hperm : ((reorderChanges ids d st.incoming ++ st.batch).map
        (·.changeID)).Perm ((st.incoming ++ st.batch).map (·.changeID)) :=
      (List.Perm.append_right _ (reorderChanges_perm ids d st.incoming)).map _
    exact hperm.symm.nodup h

theorem dedup_applyOp (op : BatchOp) (st : QState) (hop : opOK op)
    (h : DedupInv st) : DedupInv (applyOp st op) := by
  cases op with
  | addToBatch ids scores d => exact dedup_addToBatch ids scores d st h
  | removeFromBatch ids d => exact dedup_removeFromBatch ids d st h
  | clearBatch => exact dedup_clearBatch st h
  | reorder ids t d => exact dedup_reorder ids t d st h
  | replaceIncoming items => exact dedup_replaceIncoming items st hop h

/-- C3.  The claim as stated is false on the code: the refresh path
(`replaceIncoming`) filters the fetched list only against the batch, so a
payload that mentions the same REST id twice lands twice in the Incoming
queue even when the starting state satisfies the dedup invariant. -/
theorem dedup_replaceIncoming_cx :
    DedupInv ⟨[], []⟩ ∧ ¬ DedupInv (runOps cx3Ops ⟨[], []⟩) := by
  constructor
  · unfold DedupInv
    decide
  · unfold DedupInv
    decide

/-- C3 (amended).  For every sequence of addToBatch, removeFromBatch,
clearBatch, reorder and replaceIncoming operations starting from a state
satisfying the dedup invariant, and in which every replaceIncoming payload
carries pairwise-distinct ids (as a backend change query keyed by REST id
does), no change id ever appears in both Incoming and Batch, nor twice
within either. -/
theorem dedup_invariant_preserved (ops : List BatchOp) (st : QState)
    (hops : ∀ op ∈ ops, opOK op) (h : DedupInv st) :
    DedupInv (runOps ops st) := by
  induction ops generalizing st with
  | nil => simpa [runOps] using h
  | cons op rest ih =>
    rw [runOps, List.foldl_cons]
    exact ih _ (fun o ho => hops o (List.mem_cons_of_mem _ ho))
      (dedup_applyOp op st (hops op (List.mem_cons_self _ _)) h)

/-- C3 witness: a concrete op sequence that adds X to the batch, refreshes
the incoming queue with a duplicate-free payload, and reorders; the final
state still satisfies the dedup invariant. -/
theorem dedup_invariant_preserved_witness :
    (∀ op ∈ ([.replaceIncoming [cx3X],
        .addToBatch ["X"] [] none,
        .replaceIncoming [cx2A, cx2B],
        .reorder ["A"] false 1] : List BatchOp), opOK op) ∧
    DedupInv ⟨[], []⟩ ∧
    DedupInv (runOps [.replaceIncoming [cx3X],
        .addToBatch ["X"] [] none,
        .replaceIncoming [cx2A, cx2B],
        .reorder ["A"] false 1] ⟨[], []⟩) :=
  ⟨by decide, by unfold DedupInv; decide,
    dedup_invariant_preserved _ ⟨[], []⟩ (by decide)
      (by unfold DedupInv; decide)⟩

/-! ## Lemmas about POST /batch validation -/

theorem validateScores_error_of_invalid :
    ∀ (entries : List (String × JVal)) (acc : List (String × String)),
      (∃ p ∈ entries, invalidScoreEntry p.2 = true) →
      validateScores entries acc = .error () := by
  intro entries
  induction entries with
  | nil => intro acc h; simp at h
  | cons e es ih =>
    intro acc hex
    obtain ⟨id, v⟩ := e
    cases v with
    | jstr s =>
      by_cases hs : VALID_SEVERITIES.contains s
      · rw [validateScores, if_pos hs]
        apply ih
        obtain ⟨p, hp, hinv⟩ := hex
        rcases List.mem_cons.mp hp with heq | hmem
        · exfalso
          rw [heq] at hinv
          simp only [invalidScoreEntry] at hinv
          rw [hs] at hinv
          simp at hinv
        · exact ⟨p, hmem, hinv⟩
      · rw [validateScores, if_neg hs]
    | jnum n => rw [validateScores]
    | jother => rw [validateScores]

/-- C4.  A POST /batch request whose scores map contains an invalid entry
(a number out of the 1-10 legacy range such as 11, an unrecognized
severity token such as URGENT, or a non-string non-number value) is
answered with status 400, and addToBatch is not invoked, whatever the rest
of the request contains. -/
theorem post_batch_invalid_score_rejected (data : PostBatchBody)
    (entries : List (String × JVal)) (hscores : data.scores = some entries)
    (hbad : ∃ p ∈ entries, invalidScoreEntry p.2 = true) :
    (handlePostBatch (some data)).status = 400 ∧
      (handlePostBatch (some data)).addToBatchCalled = false := by
  obtain ⟨cids, sc⟩ := data
  dsimp only at hscores
  subst hscores
  cases cids with
  | none => exact ⟨rfl, rfl⟩
  | some ids =>
    by_cases hv : validateChangeIDs ids = true
    · have herr := validateScores_error_of_invalid entries [] hbad
      simp [handlePostBatch, hv, herr]
    · simp [handlePostBatch, hv]

/-- C4 witness: the request with changeIDs ["abc"] and scores
X ↦ 11 is rejected with 400 and no queue mutation. -/
theorem post_batch_invalid_score_rejected_witness :
    (PostBatchBody.mk (some [.jstr "abc"]) (some [("X", .jnum 11)])).scores =
        some [("X", JVal.jnum 11)] ∧
      (handlePostBatch (some ⟨some [.jstr "abc"],
          some [("X", .jnum 11)]⟩)).status = 400 ∧
      (handlePostBatch (some ⟨some [.jstr "abc"],
          some [("X", .jnum 11)]⟩)).addToBatchCalled = false :=
  ⟨rfl,
    post_batch_invalid_score_rejected
      ⟨some [.jstr "abc"], some [("X", .jnum 11)]⟩
      [("X", .jnum 11)] rfl (by decide)⟩

/-! ## Lemmas about chain resolution -/

theorem findIdx_of_unique_id (gid : String) (l : List ChangeChainEntry)
    (i : Nat) (hi : i < l.length)
    (hnd : (l.map (·.change_id)).Nodup)
    (hgid : (l[i]).change_id = gid) :
    l.findIdx? (fun e => e.change_id == gid) = some i := by
  rw [List.findIdx?_eq_some_iff_getElem]
  refine ⟨hi, by simp [hgid], ?_⟩
  intro j hji hp
  have hj : j < l.length := lt_trans hji hi
  have hpj : (l[j]).change_id = gid := by simpa using hp
  have hjm : j < (l.map (·.change_id)).length := by simpa using hj
  have him : i < (l.map (·.change_id)).length := by simpa using hi
  have e1 : (l.map (·.change_id))[j] = (l.map (·.change_id))[i] := by
    simp only [List.getElem_map]
    rw [hpj, hgid]
  have := (List.Nodup.getElem_inj_iff hnd).mp e1
  omega

/-- C6.  Chain info excludes merged members: the reported length counts
only active (unmerged) members; the result reports inChain false whenever
the active chain has at most one member; and the position of the change
found at active index i (tip-first order, distinct ids) is
activeLength - i, so the base (the last active entry, the earliest
unmerged ancestor) gets position 1 and positions increase toward the
tip. -/
theorem chainInfo_active_members
    (related : Option (List ChangeChainEntry)) (selfId : Option String)
    (statusOf : String → Option String) (numberOf : String → Option Nat) :
    ((activeChainOf related statusOf).length ≤ 1 →
      (isChangeChained true related selfId statusOf numberOf).inChain =
        false) ∧
    ((isChangeChained true related selfId statusOf numberOf).inChain =
        true →
      (isChangeChained true related selfId statusOf numberOf).length =
        some (activeChainOf related statusOf).length) ∧
    (∀ gid i, selfId = some gid →
      ((activeChainOf related statusOf).map (·.change_id)).Nodup →
      ∀ hi : i < (activeChainOf related statusOf).length,
        ((activeChainOf related statusOf)[i]).change_id = gid →
        1 < (activeChainOf related statusOf).length →
        (isChangeChained true related selfId statusOf numberOf).position =
          some ((activeChainOf related statusOf).length - i)) := by
  by_cases hemp : (getChangeChain related).isEmpty
  · have hnil : getChangeChain related = [] := by
      simpa [List.isEmpty_iff] using hemp
    have hact : activeChainOf related statusOf = [] := by
      unfold activeChainOf
      rw [hnil]
      rfl
    have hres : isChangeChained true related selfId statusOf numberOf =
        { inChain := false } := by
      unfold isChangeChained
      simp [hemp]
    refine ⟨fun _ => by rw [hres], fun h => ?_, fun gid i _ _ hi _ _ => ?_⟩
    · rw [hres] at h
      simp at h
    · rw [hact] at hi
      simp at hi
  · cases selfId with
    | none =>
      have hres : isChangeChained true related none statusOf numberOf =
          { inChain := false } := by
        unfold isChangeChained
        simp [hemp]
      refine ⟨fun _ => by rw [hres], fun h => ?_, fun gid i hgid _ _ _ _ => ?_⟩
      · rw [hres] at h
        simp at h
      · cases hgid
    | some gid0 =>
      have hres : isChangeChained true related (some gid0) statusOf numberOf =
          { inChain := decide (1 < (activeChainOf related statusOf).length)
            position :=
              match (activeChainOf related statusOf).findIdx?
                  (fun e => e.change_id == gid0) with
              | some i =>
                if 1 < (activeChainOf related statusOf).length then
                  some ((activeChainOf related statusOf).length - i)
                else none
              | none => none
            length :=
              if 1 < (activeChainOf related statusOf).length then
                some (activeChainOf related statusOf).length
              else none
            chainNumber :=
              (((activeChainOf related statusOf).getLast?).map
                (·.change_id)).bind numberOf
            chainBaseChangeId :=
              ((activeChainOf related statusOf).getLast?).map
                (·.change_id) } := by
        unfold isChangeChained activeChainOf
        simp [hemp]
      refine ⟨fun hle => ?_, fun h => ?_, fun gid i hgid hnd hi hid hlen => ?_⟩
      · rw [hres]
        simp only
        rw [decide_eq_false (by omega)]
      · rw [hres] at h ⊢
        simp only at h ⊢
        have : 1 < (activeChainOf related statusOf).length := by
          simpa using h
        rw [if_pos this]
      · obtain ⟨rfl⟩ : gid = gid0 := by
          injection hgid with h
          exact h.symm
        rw [hres]
        simp only
        rw [findIdx_of_unique_id gid0 _ i hi hnd hid]
        dsimp only
        rw [if_pos hlen]

/-- C6 witness: on the single-member chain the result is inChain false;
on the three-member chain whose middle member is merged, the reported
length is 2 (merged member excluded) and the base change Ibase gets
position 1. -/
theorem chainInfo_active_members_witness :
    (isChangeChained true cx6Single (some "Ionly") cx6Status
        cx6Num).inChain = false ∧
    (isChangeChained true cx6Related (some "Ibase") cx6Status
        cx6Num).length = some 2 ∧
    (isChangeChained true cx6Related (some "Ibase") cx6Status
        cx6Num).position = some 1 :=
  ⟨(chainInfo_active_members cx6Single (some "Ionly") cx6Status cx6Num).1
      (by decide),
   ((chainInfo_active_members cx6Related (some "Ibase") cx6Status
        cx6Num).2.1 (by decide)).trans (by decide),
   ((chainInfo_active_members cx6Related (some "Ibase") cx6Status
        cx6Num).2.2 "Ibase" 1 rfl (by decide) (by decide) (by decide)
      (by decide)).trans (by decide)⟩

/-! ## Lemmas about the selection state machine -/

theorem mem_setAdd (s : List String) (i x : String) :
    x ∈ setAdd s i ↔ x ∈ s ∨ x = i := by
  unfold setAdd
  by_cases h : s.contains i
  · rw [if_pos h]
    have hmem : i ∈ s := by simpa using h
    constructor
    · exact Or.inl
    · rintro (hx | rfl)
      · exact hx
      · exact hmem
  · rw [if_neg h]
    simp [List.mem_append]

theorem mem_applyMultiSelectAdd :
    ∀ (ids s : List String) (x : String),
      x ∈ applyMultiSelectAdd s ids ↔ x ∈ s ∨ x ∈ ids := by
  intro ids
  induction ids with
  | nil => intro s x; simp [applyMultiSelectAdd]
  | cons i is ih =>
    intro s x
    unfold applyMultiSelectAdd at ih ⊢
    rw [List.foldl_cons, ih, mem_setAdd, List.mem_cons]
    tauto

/-- C7.  The claim as stated is false on the code: the chain case always
unions the chain members into the selection and never deselects, so at the
concrete state in which both members of chain 7 are already selected, the
chain-badge click leaves them selected instead of deselecting them all. -/
theorem chain_select_no_toggle_cx :
    (chainMemberIDs cx7Changes cx7Map 7).all
        (cx7St.selected.contains ·) = true ∧
    (handleSelectionEvent cx7Changes (some cx7Map) cx7St cx7Ev).selected =
      cx7St.selected ∧
    "C1r" ∈ (handleSelectionEvent cx7Changes (some cx7Map) cx7St
        cx7Ev).selected ∧
    "C2r" ∈ (handleSelectionEvent cx7Changes (some cx7Map) cx7St
        cx7Ev).selected := by
  decide

/-- C7 (amended).  A chain-badge click (with a nonzero chain number and a
chain info map) always selects: the resulting selection keeps every
previously selected id, contains every member of the clicked chain within
the current list, adds nothing else, and the anchor moves to the clicked
index; the operation never deselects, even when all members were already
selected. -/
theorem chain_select_always_selects (changes : List BatchReviewChange)
    (m : String → Option SelChainInfo) (st : SelState)
    (ev : SelectionEvent) (n : Nat) (hact : ev.action = .chain)
    (hnum : ev.chainNumber = some n) (hnz : n ≠ 0) :
    (∀ id ∈ st.selected,
      id ∈ (handleSelectionEvent changes (some m) st ev).selected) ∧
    (∀ id ∈ chainMemberIDs changes m n,
      id ∈ (handleSelectionEvent changes (some m) st ev).selected) ∧
    (∀ id, id ∈ (handleSelectionEvent changes (some m) st ev).selected →
      id ∈ st.selected ∨ id ∈ chainMemberIDs changes m n) ∧
    (handleSelectionEvent changes (some m) st ev).anchorIndex =
      some ev.index := by
  unfold handleSelectionEvent
  rw [hact]
  dsimp only
  rw [hnum]
  dsimp only
  rw [if_neg (by simpa using hnz)]
  by_cases hE : (chainMemberIDs changes m n).isEmpty
  · have hnil : chainMemberIDs changes m n = [] := by
      simpa [List.isEmpty_iff] using hE
    rw [if_pos (by rw [hnil]; rfl)]
    refine ⟨fun id h => h, ?_, fun id h => Or.inl h, rfl⟩
    rw [hnil]
    intro id h
    simp at h
  · rw [if_neg (by simpa [List.isEmpty_iff] using hE)]
    refine ⟨?_, ?_, ?_, rfl⟩
    · intro id h
      exact (mem_applyMultiSelectAdd _ _ _).mpr (Or.inl h)
    · intro id h
      exact (mem_applyMultiSelectAdd _ _ _).mpr (Or.inr h)
    · intro id h
      exact (mem_applyMultiSelectAdd _ _ _).mp h

/-- C7 witness: starting from an empty selection, clicking the chain badge
of chain 7 selects both members and anchors at the clicked index. -/
theorem chain_select_always_selects_witness :
    "C1r" ∈ (handleSelectionEvent cx7Changes (some cx7Map)
        ⟨[], none⟩ cx7Ev).selected ∧
    "C2r" ∈ (handleSelectionEvent cx7Changes (some cx7Map)
        ⟨[], none⟩ cx7Ev).selected ∧
    (handleSelectionEvent cx7Changes (some cx7Map)
        ⟨[], none⟩ cx7Ev).anchorIndex = some 0 :=
  ⟨(chain_select_always_selects cx7Changes cx7Map ⟨[], none⟩ cx7Ev 7
      rfl rfl (by decide)).2.1 "C1r" (by decide),
   (chain_select_always_selects cx7Changes cx7Map ⟨[], none⟩ cx7Ev 7
      rfl rfl (by decide)).2.1 "C2r" (by decide),
   (chain_select_always_selects cx7Changes cx7Map ⟨[], none⟩ cx7Ev 7
      rfl rfl (by decide)).2.2.2⟩

/-- C8.  The claim as stated is false on the code: a Shift+click range
selection never moves the anchor, so at the concrete state with no anchor
the clicked item does not become the new anchor (the anchor stays unset),
even though the range from index 0 is selected as claimed. -/
theorem range_select_anchor_cx :
    cx8St.anchorIndex = none ∧
    (handleSelectionEvent cx8Changes none cx8St cx8Ev).selected =
      ["R0", "R1", "R2"] ∧
    (handleSelectionEvent cx8Changes none cx8St cx8Ev).anchorIndex =
      none ∧
    ¬ ((handleSelectionEvent cx8Changes none cx8St cx8Ev).anchorIndex =
      some 2) := by
  decide

/-- C8 (amended).  A Shift+click range selection unions the ids between
index(anchor) (or 0 when no anchor exists) and the clicked index inclusive
into the existing selection, and the anchor is left unchanged in every
case: when no anchor existed it stays unset rather than moving to the
clicked item. -/
theorem range_select_union_anchor_unchanged
    (changes : List BatchReviewChange)
    (cmap : Option (String → Option SelChainInfo)) (st : SelState)
    (ev : SelectionEvent) (hact : ev.action = .range) :
    (∀ id, id ∈ (handleSelectionEvent changes cmap st ev).selected ↔
      id ∈ st.selected ∨ id ∈ rangeIDs changes st.anchorIndex ev.index) ∧
    (handleSelectionEvent changes cmap st ev).anchorIndex =
      st.anchorIndex := by
  unfold handleSelectionEvent
  rw [hact]
  dsimp only
  exact ⟨fun id => mem_applyMultiSelectAdd _ _ _, rfl⟩

/-- C8 witness: with anchor at index 1, shift-clicking index 2 unions R1
and R2 into the selection and keeps the anchor at index 1. -/
theorem range_select_union_anchor_unchanged_witness :
    "R1" ∈ (handleSelectionEvent cx8Changes none
        ⟨["R0"], some 1⟩ cx8Ev).selected ∧
    "R2" ∈ (handleSelectionEvent cx8Changes none
        ⟨["R0"], some 1⟩ cx8Ev).selected ∧
    (handleSelectionEvent cx8Changes none
        ⟨["R0"], some 1⟩ cx8Ev).anchorIndex = some 1 :=
  ⟨((range_select_union_anchor_unchanged cx8Changes none ⟨["R0"], some 1⟩
      cx8Ev rfl).1 "R1").mpr (Or.inr (by decide)),
   ((range_select_union_anchor_unchanged cx8Changes none ⟨["R0"], some 1⟩
      cx8Ev rfl).1 "R2").mpr (Or.inr (by decide)),
   (range_select_union_anchor_unchanged cx8Changes none ⟨["R0"], some 1⟩
      cx8Ev rfl).2⟩

/-- C9.  While a start is in progress (starting flag set, server not yet
stored) a second start() call is rejected with an error, creates no
listener, and leaves the state untouched; while the server is already
running (server stored with its port) start() resolves the existing port
immediately, creates no listener, and leaves the state untouched. -/
theorem start_lifecycle_guards (st : ServerState) (bindOk : Bool) :
    (st.starting = true → st.serverExists = false →
      (startServer st bindOk).2.1 = .rejectedAlreadyStarting ∧
      (startServer st bindOk).2.2 = 0 ∧
      (startServer st bindOk).1 = st) ∧
    (∀ p, st.serverExists = true → st.port = some p →
      (startServer st bindOk).2.1 = .resolvedExisting p ∧
      (startServer st bindOk).2.2 = 0 ∧
      (startServer st bindOk).1 = st) := by
  obtain ⟨se, pt, sg⟩ := st
  constructor
  · intro hsg hse
    dsimp only at hsg hse
    subst hsg; subst hse
    cases pt with
    | none => simp [startServer]
    | some p => simp [startServer]
  · intro p hse hpt
    dsimp only at hse hpt
    subst hse; subst hpt
    simp [startServer]

/-- C9 witness: a start call during an in-progress start is rejected with
no listener created; a start call on a running server resolves the stored
port with no listener created. -/
theorem start_lifecycle_guards_witness :
    (startServer ⟨false, none, true⟩ true).2.1 =
        .rejectedAlreadyStarting ∧
    (startServer ⟨false, none, true⟩ true).2.2 = 0 ∧
    (startServer ⟨true, some 45193, false⟩ true).2.1 =
        .resolvedExisting 45193 ∧
    (startServer ⟨true, some 45193, false⟩ true).2.2 = 0 :=
  ⟨((start_lifecycle_guards ⟨false, none, true⟩ true).1 rfl rfl).1,
   ((start_lifecycle_guards ⟨false, none, true⟩ true).1 rfl rfl).2.1,
   ((start_lifecycle_guards ⟨true, some 45193, false⟩ true).2 45193
      rfl rfl).1,
   ((start_lifecycle_guards ⟨true, some 45193, false⟩ true).2 45193
      rfl rfl).2.1⟩

/-- C10.  getPort returns the fixed port 45193 in every server state,
including the never-started initial state and any stopped state; its
result is always non-null despite the nullable declared type. -/
theorem getPort_always_fixed :
    ∀ st : ServerState, getPort st = some 45193 ∧
      (getPort st).isSome = true ∧
      getPort (stopServer st) = some 45193 ∧
      getPort ⟨false, none, false⟩ = some FIXED_PORT :=
  fun _ => ⟨rfl, rfl, rfl, rfl⟩
